import Mathlib

/-!
Shallow embedding of `src/scmrepo/git/lfs/fetch.py` (git-LFS fetch logic):
layered LFS fetch-URL resolution (`get_fetch_url`), glob-based path
filtering (`_filter_paths`), traversal-root narrowing
(`_ROOT_PATH_PREFIX_REGEX`), pointer collection (`_collect_objects`) and
the fetch orchestrator (`fetch`).

External collaborators (configuration reader, repository file system,
attribute lookup, pointer codec, large-object storage) are modelled as
pure fields of a `Git` record, mirroring the narrow contracts the source
consumes them through.  Python `Optional`/falsiness, `KeyError` /
`FileNotFoundError` / `InvalidRemote` / `ValueError` / `OSError` control
flow become `Option` / `Except` values.
-/

/-- Modelled from the spec: the `Pointer` record of
`scmrepo/git/lfs/pointer.py` (that module is not under `src/`).  Per the
spec's data model, a pointer is identified by a content identifier (oid)
and a byte size; equality and hashing are by these fields alone,
independent of the file path or revision that referenced it. -/
structure Pointer where
  oid : String
  size : Nat
deriving DecidableEq, Repr

/-- The only exception `get_fetch_url` can raise to its caller:
`InvalidRemote`, raised by `scm.get_remote_url` when the remote is
unknown ("no remote configured"). -/
inductive FetchError where
  | invalidRemote
deriving DecidableEq, Repr

/-- A configuration store: `get(section, key)` returning `none` where the
Python `Config.get` raises `KeyError`.  Sections are tuples of strings in
the source (`("lfs",)`, `("remote", name)`). -/
def Config : Type := List String → String → Option String

/-- Collaborator state consumed by `fetch.py`, one field per narrow
contract the source uses:

* `git_config` — `scm.get_config()`, the primary configuration;
* `lfs_config` — `scm.get_config(root_dir/".lfsconfig")`; `none` models
  the `FileNotFoundError` branch (overlay file does not exist);
* `active_branch_remote` — `scm.active_branch_remote()`; `none` models
  the `SCMError` branch;
* `remote_url` — `scm.get_remote_url(name)`; `none` models the
  `InvalidRemote` branch;
* `find` — `scm.get_fs(rev).find(root)`: recursive path enumeration of
  the revision's tree under `root`;
* `check_attr` — `scm.check_attr(path, attrname, source=rev)`; `none`
  models an unset attribute;
* `headers` — the `HEADERS` byte-prefix signatures of the pointer codec
  (`scmrepo/git/lfs/pointer.py`, not under `src/`; modelled from the
  spec as an opaque fixed set of recognized signatures);
* `pointerLoad` — `Pointer.load` on the raw blob bytes; `none` models
  the `ValueError` branch (parse failure);
* `openRaw` — `scm.get_fs(rev).open(path, "rb", raw=True)` followed by
  reading; `.error` models the `OSError` branch;
* `lfs_exists` — `scm.lfs_storage.exists(pointer)`.

Blob contents are byte lists (`List Nat`). -/
structure Git where
  git_config : Config
  lfs_config : Option Config
  active_branch_remote : Option String
  remote_url : String → Option String
  find : String → String → List String
  check_attr : String → String → String → Option String
  headers : List (List Nat)
  pointerLoad : List Nat → Option Pointer
  openRaw : String → String → Except Unit (List Nat)
  lfs_exists : Pointer → Bool

/-- Python falsiness of an `Optional[str]`: `None` and `""` are falsy. -/
def truthyStr : Option String → Bool
  | none => false
  | some s => !s.isEmpty

/-- Python falsiness of an `Optional[list]`: `None` and `[]` are falsy. -/
def truthyList : Option (List String) → Bool
  | none => false
  | some l => !l.isEmpty

/-- Lines 70–87 of `get_fetch_url`: resolve the remote name used for the
`remote.<name>.lfsurl` and default-URL layers.  If the caller-supplied
`remote` is falsy, try the active branch's tracked remote (ignoring
`SCMError`); if still falsy, use `remote.lfsdefault` from the primary
configuration, defaulting to the literal `"origin"` on `KeyError`. -/
def resolve_remote_name (scm : Git) (remote : Option String) : String :=
  let remote :=
    if !truthyStr remote then
      match scm.active_branch_remote with
      | some r => some r
      | none => remote
    else remote
  if !truthyStr remote then
    match scm.git_config ["remote"] "lfsdefault" with
    | some r => r
    | none => "origin"
  else remote.getD ""

/-- `get_fetch_url(scm, remote)`: return the LFS fetch URL for the
repository.  Sequential `try`/`except KeyError` fallthrough becomes
nested matches; the overlay lookup is guarded by `if lfs_config:`
(truthiness of the loaded overlay, `none` when `.lfsconfig` is absent). -/
def get_fetch_url (scm : Git) (remote : Option String) : Except FetchError String :=
  -- check lfs.url (can be set in git config and .lfsconfig)
  match scm.git_config ["lfs"] "url" with
  | some url => .ok url
  | none =>
    match (match scm.lfs_config with
           | some cfg => cfg ["lfs"] "url"
           | none => none) with
    | some url => .ok url
    | none =>
      let remoteName := resolve_remote_name scm remote
      -- check remote.*.lfsurl (can be set in git config and .lfsconfig)
      match scm.git_config ["remote", remoteName] "lfsurl" with
      | some url => .ok url
      | none =>
        match (match scm.lfs_config with
               | some cfg => cfg ["remote", remoteName] "lfsurl"
               | none => none) with
        | some url => .ok url
        | none =>
          -- return default Git fetch URL for this remote
          match scm.remote_url remoteName with
          | some url => .ok url
          | none => .error .invalidRemote

/-- First present value in a list of optional values (the "each lower
layer consulted only if every higher layer yielded nothing" chain). -/
def firstSome : List (Option String) → Option String
  | [] => none
  | some x :: _ => some x
  | none :: rest => firstSome rest

/-- Following the claim's description of URL resolution: the five
configuration layers, highest precedence first, for the resolved remote
name. -/
def fetchUrlLayers (scm : Git) (remote : Option String) : List (Option String) :=
  let name := resolve_remote_name scm remote
  [scm.git_config ["lfs"] "url",
   scm.lfs_config.bind fun cfg => cfg ["lfs"] "url",
   scm.git_config ["remote", name] "lfsurl",
   scm.lfs_config.bind fun cfg => cfg ["remote", name] "lfsurl",
   scm.remote_url name]

/-! ### Glob matching (Python `fnmatch`, POSIX)

`fnmatch.filter(names, pattern)` matches the whole path string with
shell-glob semantics: `*` matches any (possibly empty) sequence of
characters including `/`, `?` matches exactly one character, `[...]`
matches a character class (leading `!` negates it; a `]` directly after
the opening `[` or `[!` is a literal member; `a-b` is a range; an
unclosed `[` is a literal `[`).  On POSIX `os.path.normcase` is the
identity, so matching is case-sensitive and exact. -/

/-- A compiled glob-pattern token. -/
inductive GlobTok where
  | star
  | anyChar
  | lit (c : Char)
  | cls (neg : Bool) (items : List (Char × Char))
deriving DecidableEq, Repr

/-- Split a character-class body at the first `]`: returns the content
before it and the remainder after it, or `none` when the class is
unclosed. -/
def findClose : List Char → Option (List Char × List Char)
  | [] => none
  | c :: rest =>
    if c = ']' then some ([], rest)
    else
      match findClose rest with
      | some (content, r) => some (c :: content, r)
      | none => none

/-- Character-class items: `a-b` ranges, single characters as
degenerate ranges. -/
def parseItems : List Char → List (Char × Char)
  | a :: '-' :: b :: rest => (a, b) :: parseItems rest
  | a :: rest => (a, a) :: parseItems rest
  | [] => []

/-- Membership of `c` in the parsed class items. -/
def inClassItems (items : List (Char × Char)) (c : Char) : Bool :=
  items.any fun ab => ab.1 ≤ c && c ≤ ab.2

/-- Compile a glob pattern into tokens, mirroring `fnmatch.translate`'s
handling of `*`, `?` and bracketed classes. -/
def tokenize : List Char → List GlobTok
  | [] => []
  | '*' :: rest => GlobTok.star :: tokenize rest
  | '?' :: rest => GlobTok.anyChar :: tokenize rest
  | '[' :: '!' :: ']' :: rest2 =>
    match h : findClose rest2 with
    | some (content, rest3) =>
      GlobTok.cls true (parseItems (']' :: content)) :: tokenize rest3
    | none => GlobTok.lit '[' :: tokenize ('!' :: ']' :: rest2)
  | '[' :: '!' :: rest1 =>
    match h : findClose rest1 with
    | some (content, rest3) => GlobTok.cls true (parseItems content) :: tokenize rest3
    | none => GlobTok.lit '[' :: tokenize ('!' :: rest1)
  | '[' :: ']' :: rest2 =>
    match h : findClose rest2 with
    | some (content, rest3) =>
      GlobTok.cls false (parseItems (']' :: content)) :: tokenize rest3
    | none => GlobTok.lit '[' :: tokenize (']' :: rest2)
  | '[' :: rest1 =>
    match h : findClose rest1 with
    | some (content, rest3) => GlobTok.cls false (parseItems content) :: tokenize rest3
    | none => GlobTok.lit '[' :: tokenize rest1
  | c :: rest => GlobTok.lit c :: tokenize rest
termination_by cs => cs.length
decreasing_by
  all_goals simp_arith
  all_goals {
    have hlt : ∀ (cs : List Char), ∀ content r, findClose cs = some (content, r) →
        r.length < cs.length := by
      intro cs
      induction cs with
      | nil => intro content r hfc; simp [findClose] at hfc
      | cons c2 rest2 ih =>
        intro content r hfc
        simp only [findClose] at hfc
        split at hfc
        · simp only [Option.some.injEq, Prod.mk.injEq] at hfc
          obtain ⟨-, hr⟩ := hfc
          subst hr
          simp
        · split at hfc
          · rename_i content2 r2 hfc2
            simp only [Option.some.injEq, Prod.mk.injEq] at hfc
            obtain ⟨-, hr⟩ := hfc
            subst hr
            have := ih content2 r2 hfc2
            simp
            omega
          · simp at hfc
    have := hlt _ _ _ h
    omega
  }

/-- Match compiled tokens against the name's characters. -/
def tokMatch : List GlobTok → List Char → Bool
  | [], [] => true
  | [], _ :: _ => false
  | GlobTok.star :: ts, [] => tokMatch ts []
  | GlobTok.star :: ts, c :: cs => tokMatch ts (c :: cs) || tokMatch (GlobTok.star :: ts) cs
  | GlobTok.anyChar :: _, [] => false
  | GlobTok.anyChar :: ts, _ :: cs => tokMatch ts cs
  | GlobTok.lit _ :: _, [] => false
  | GlobTok.lit a :: ts, c :: cs => (a = c) && tokMatch ts cs
  | GlobTok.cls _ _ :: _, [] => false
  | GlobTok.cls neg items :: ts, c :: cs => (inClassItems items c != neg) && tokMatch ts cs
termination_by ts cs => ts.length + cs.length
decreasing_by all_goals simp_arith

/-- `fnmatch.fnmatch(name, pattern)` (POSIX: no case folding). -/
def fnmatch (name pattern : String) : Bool :=
  tokMatch (tokenize pattern.data) name.data

/-- `fnmatch.filter(paths, pattern)`. -/
def fnmatch_filter (paths : List String) (pattern : String) : List String :=
  paths.filter fun name => fnmatch name pattern

/-- `_filter_paths(paths, include, exclude)` (lines 143–155).  The Python
function accumulates a `set`: the union over the include patterns of
`fnmatch.filter(paths, pattern)` (or all of `paths` when `include` is
falsy), then removes every path matching an exclude pattern.  The set is
modelled as a duplicate-free list: `paths.dedup` filtered by
"matches some include pattern" is exactly that union, and the exclude
`difference_update` removes exactly the paths matching some exclude
pattern.  The Python set's iteration order is unspecified; this model
fixes the input order. -/
def _filter_paths (paths : List String) (includeP excludeP : Option (List String)) :
    List String :=
  let filtered :=
    if truthyList includeP then
      paths.dedup.filter fun path => (includeP.getD []).any fun pattern => fnmatch path pattern
    else paths.dedup
  if truthyList excludeP then
    filtered.filter fun path => !(excludeP.getD []).any fun pattern => fnmatch path pattern
  else filtered

/-! ### Object collection -/

/-- Wildcard characters: the characters excluded by the regex character
class `[^*?\[]` in `_ROOT_PATH_PREFIX_REGEX`. -/
def isWildcard (c : Char) : Bool := c = '*' || c = '?' || c = '['

/-- `_ROOT_PATH_PREFIX_REGEX.match(path)` for the anchored Python regex
`^(?P<prefix>[^*?\[]*(?:/|$))`, returning the `prefix` group.  The
greedy `[^*?\[]*` followed by `(?:/|$)` yields: the whole string when it
contains no wildcard character (the `$` alternative; `$` before a
trailing newline cannot yield anything different here, since a string
whose last character is not a wildcard either is wholly wildcard-free or
has its first wildcard strictly before the last position, out of the
star's reach); otherwise, by backtracking into the `/` alternative, the
longest prefix ending in `/` of the wildcard-free initial run; otherwise
no match. -/
def rootPathRegexMatch (s : String) : Option String :=
  if (s.data.takeWhile fun c => !isWildcard c).length = s.data.length then some s
  else
    if ((s.data.takeWhile fun c => !isWildcard c).reverse.dropWhile
        fun c => c != '/').reverse.isEmpty then none
    else
      some ⟨((s.data.takeWhile fun c => !isWildcard c).reverse.dropWhile
        fun c => c != '/').reverse⟩

/-- Python `s.rstrip("/")`. -/
def rstripSlashes (s : String) : String :=
  ⟨(s.data.reverse.dropWhile fun c => c = '/').reverse⟩

/-- Python `s.lstrip("/")`. -/
def lstripSlashes (s : String) : String :=
  ⟨s.data.dropWhile fun c => c = '/'⟩

/-- Lines 112–128 of `_collect_objects`: the root-narrowing step.  When
`include` is truthy, has exactly one element and the root-prefix regex
matches it, the traversal root becomes the matched prefix, and when the
pattern equals the root or `root.rstrip("/") + "/**"`, `include` is
emptied; otherwise the root is `"/"` and `include` is unchanged. -/
def collectRootAndInclude (includeP : Option (List String)) :
    String × Option (List String) :=
  match includeP with
  | some [path] =>
    match rootPathRegexMatch path with
    | some root =>
      if path = root || path = rstripSlashes root ++ "/**" then (root, some [])
      else (root, some [path])
    | none => ("/", some [path])
  | _ => ("/", includeP)

/-- Body of the per-path loop of `_collect_objects` (lines 131–140): a
candidate yields a pointer exactly when its `filter` attribute is
`"lfs"`, its raw content opens without `OSError`, some recognized header
is a prefix of the peeked 100-byte window, and `Pointer.load` parses it
without `ValueError`.  Both exception branches are caught and produce no
pointer. -/
def processCandidate (scm : Git) (rev : String) (path : String) : Option Pointer :=
  let check_path := lstripSlashes path
  if scm.check_attr check_path "filter" rev = some "lfs" then
    match scm.openRaw rev path with
    | Except.error _ => none
    | Except.ok data =>
      if scm.headers.any fun header => header.isPrefixOf (data.take 100) then
        scm.pointerLoad data
      else none
  else none

/-- The filtered candidate paths `_collect_objects` iterates over:
`_filter_paths(fs.find(root), include, exclude)` after root narrowing. -/
def collectPaths (scm : Git) (rev : String) (includeP excludeP : Option (List String)) :
    List String :=
  let ri := collectRootAndInclude includeP
  _filter_paths (scm.find rev ri.1) ri.2 excludeP

/-- `_collect_objects(scm, rev, include, exclude)` (lines 105–140),
flattened from a generator to the list of pointers it yields. -/
def _collect_objects (scm : Git) (rev : String)
    (includeP excludeP : Option (List String)) : List Pointer :=
  (collectPaths scm rev includeP excludeP).filterMap (processCandidate scm rev)

/-! ### Fetch orchestrator -/

/-- Observable collaborator calls made by `fetch`: per-pointer local
storage existence checks, the `get_fetch_url` invocation, and the final
`lfs_storage.fetch` transfer delegation. -/
inductive Call where
  | exists_check (pointer : Pointer)
  | resolve_url
  | transfer (url : String) (objects : Finset Pointer)
deriving DecidableEq

/-- Line 27–28: `if not revs: revs = ["HEAD"]`. -/
def usedRevs (revs : Option (List String)) : List String :=
  if truthyList revs then revs.getD [] else ["HEAD"]

/-- The pointers yielded by `_collect_objects` over all requested
revisions, in traversal order (lines 30–35 iterate the generator once
per revision; the storage existence check runs on every yielded
pointer). -/
def fetchCollected (scm : Git) (revs : Option (List String))
    (includeP excludeP : Option (List String)) : List Pointer :=
  (usedRevs revs).flatMap fun rev => _collect_objects scm rev includeP excludeP

/-- The accumulated `objects: set[Pointer]` of `fetch`: every collected
pointer whose storage existence check returned false, deduplicated by
`Pointer` identity (lines 29–35). -/
def fetchObjects (scm : Git) (revs : Option (List String))
    (includeP excludeP : Option (List String)) : Finset Pointer :=
  ((fetchCollected scm revs includeP excludeP).filter
    fun pointer => !scm.lfs_exists pointer).toFinset

/-- `fetch(scm, revs, remote, include, exclude)` (lines 18–46), returning
the trace of collaborator calls and the propagated error, if any.  The
`except InvalidRemote` handler recovers with the raw `remote` string as
URL only when `remote` is truthy; otherwise the error propagates.
Transfer itself is delegated and modelled as the final trace entry. -/
def fetch (scm : Git) (revs : Option (List String)) (remote : Option String)
    (includeP excludeP : Option (List String)) : List Call × Option FetchError :=
  let objects := fetchObjects scm revs includeP excludeP
  let trace := (fetchCollected scm revs includeP excludeP).map Call.exists_check
  if objects = ∅ then (trace, none)
  else
    match get_fetch_url scm remote with
    | Except.ok url => (trace ++ [Call.resolve_url, Call.transfer url objects], none)
    | Except.error e =>
      if truthyStr remote then
        (trace ++ [Call.resolve_url, Call.transfer (remote.getD "") objects], none)
      else (trace ++ [Call.resolve_url], some e)

/-! ### Spec-side description of root narrowing

These definitions follow the words of the (amended) root-narrowing
claim, to be compared against `collectRootAndInclude`, which follows the
code. -/

/-- A pattern contains a glob wildcard character. -/
def hasWildcard (s : String) : Bool := s.data.any isWildcard

/-- `slashBoundary path k`: the first `k` characters of `path` form a
nonempty wildcard-free prefix of `path` ending at a path-separator
boundary. -/
def slashBoundary (path : String) (k : Nat) : Prop :=
  0 < k ∧ (path.data.take k).getLast? = some '/' ∧
    ∀ c ∈ path.data.take k, isWildcard c = false

instance slashBoundaryDecidable (path : String) : DecidablePred (slashBoundary path) := by
  intro k
  unfold slashBoundary
  exact inferInstance

/-- Following the amended claim's words: the narrowed root for a single
include pattern is the whole pattern when it is wildcard-free; otherwise
the longest wildcard-free prefix ending at a path-separator boundary,
when one exists; otherwise there is no match and no narrowing occurs. -/
def specNarrowRoot (path : String) : Option String :=
  if path.data.all fun c => !isWildcard c then some path
  else if Nat.findGreatest (slashBoundary path) path.data.length = 0 then none
  else some ⟨path.data.take (Nat.findGreatest (slashBoundary path) path.data.length)⟩

/-- Following the amended claim's words: the full narrowing step.  With
exactly one include pattern whose `specNarrowRoot` exists, that root
becomes the traversal root and include filtering is dropped exactly when
the pattern equals the root or equals the slash-stripped root followed
by `"/**"`; in every other case the root is the tree root `"/"` and the
include patterns are unchanged. -/
def specRootNarrowing (includeP : Option (List String)) :
    String × Option (List String) :=
  match includeP with
  | some [path] =>
    match specNarrowRoot path with
    | some root =>
      if path = root || path = rstripSlashes root ++ "/**" then (root, some [])
      else (root, some [path])
    | none => ("/", some [path])
  | _ => ("/", includeP)

/-! ### Concrete collaborator environments

Small concrete `Git` states used to witness the fetch-orchestrator
theorems on explicit inputs. -/

/-- A primary configuration carrying only `lfs.url = "http://x"`. -/
def cfgLfsUrl : Config := fun sectionT key =>
  if sectionT = ["lfs"] ∧ key = "url" then some "http://x" else none

/-- One tree path `"/a"`, recognized as an LFS pointer parsing to
`Pointer "abc" 10`, never present in local storage. -/
def gitEnvDup : Git where
  git_config := cfgLfsUrl
  lfs_config := none
  active_branch_remote := none
  remote_url := fun _ => none
  find := fun _ _ => ["/a"]
  check_attr := fun _ _ _ => some "lfs"
  headers := [[1]]
  pointerLoad := fun _ => some ⟨"abc", 10⟩
  openRaw := fun _ _ => Except.ok [1, 2]
  lfs_exists := fun _ => false

/-- Same as `gitEnvDup` but every pointer is already in local storage. -/
def gitEnvPresent : Git :=
  { gitEnvDup with lfs_exists := fun _ => true }

/-- Same as `gitEnvDup` but with no configuration at all, so URL
resolution reaches `get_remote_url` and fails with `InvalidRemote`. -/
def gitEnvNoRemote : Git :=
  { gitEnvDup with git_config := fun _ _ => none }

/-- Same as `gitEnvDup` plus a second candidate `"/bad"` whose raw open
fails with `OSError`. -/
def gitEnvBadBlob : Git :=
  { gitEnvDup with
    find := fun _ _ => ["/a", "/bad"]
    openRaw := fun _ q => if q = "/bad" then Except.error () else Except.ok [1, 2] }

/-! ### Helper lemmas -/

/-- A falsy `Optional[list]` contributes no patterns. -/
theorem not_truthyList_getD (o : Option (List String)) (h : ¬truthyList o = true) :
    o.getD [] = [] := by
  cases o with
  | none => rfl
  | some l =>
    cases l with
    | nil => rfl
    | cons a t => simp [truthyList] at h

/-- Extending a list prefix on the left by the same head. -/
theorem cons_prefix_of (a : Char) {l₁ l₂ : List Char} (h : l₁ <+: l₂) :
    a :: l₁ <+: a :: l₂ := by
  obtain ⟨t, ht⟩ := h
  exact ⟨t, by simp [ht]⟩

/-- A prefix all of whose characters satisfy `p` is a prefix of
`takeWhile p`. -/
theorem prefix_takeWhile_of_all {p : Char → Bool} :
    ∀ (pre l : List Char), pre <+: l → (∀ c ∈ pre, p c = true) → pre <+: l.takeWhile p := by
  intro pre
  induction pre with
  | nil => intro l _ _; exact List.nil_prefix
  | cons a pr ih =>
    intro l hpre hall
    obtain ⟨t, ht⟩ := hpre
    subst ht
    rw [List.cons_append, List.takeWhile_cons_of_pos (hall a (List.mem_cons_self a pr))]
    exact cons_prefix_of a (ih (pr ++ t) (List.prefix_append pr t)
      fun c hc => hall c (List.mem_cons_of_mem a hc))

/-- The head of a `dropWhile` result fails the predicate. -/
theorem dropWhile_head_false {p : Char → Bool} :
    ∀ (l : List Char) (x : Char) (xs : List Char), l.dropWhile p = x :: xs → p x = false := by
  intro l
  induction l with
  | nil => intro x xs h; simp [List.dropWhile] at h
  | cons a t ih =>
    intro x xs h
    by_cases hp : p a
    · rw [List.dropWhile_cons_of_pos hp] at h
      exact ih x xs h
    · rw [List.dropWhile_cons_of_neg hp] at h
      cases h
      exact Bool.eq_false_iff.mpr hp

/-- The backtracking behaviour of the anchored regex
`^(?P<prefix>[^*?\[]*(?:/|$))` coincides with the spec-side description:
the whole string when wildcard-free, else the longest wildcard-free
prefix ending at a separator boundary, else no match. -/
theorem rootPathRegexMatch_eq_spec (path : String) :
    rootPathRegexMatch path = specNarrowRoot path := by
  unfold rootPathRegexMatch specNarrowRoot
  by_cases hall : path.data.all fun c => !isWildcard c
  · have hrun : path.data.takeWhile (fun c => !isWildcard c) = path.data :=
      List.takeWhile_eq_self_iff.mpr fun x hx => List.all_eq_true.mp hall x hx
    rw [hrun]
    simp [hall]
  · have hpre0 : path.data.takeWhile (fun c => !isWildcard c) <+: path.data :=
      List.takeWhile_prefix _
    have hlt : ¬((path.data.takeWhile fun c => !isWildcard c).length = path.data.length) := by
      intro hlen
      exact hall (List.all_eq_true.mpr (List.takeWhile_eq_self_iff.mp
        (hpre0.eq_of_length hlen)))
    rw [if_neg hlt, if_neg hall]
    set run := path.data.takeWhile (fun c => !isWildcard c) with hrun
    set kept := (run.reverse.dropWhile fun c => c != '/').reverse with hkept
    set m := kept.length with hm
    have hkept_run : kept <+: run := by
      have hsuf : run.reverse.dropWhile (fun c => c != '/') <:+ run.reverse :=
        List.dropWhile_suffix _
      have h2 := List.reverse_prefix.mpr hsuf
      rwa [List.reverse_reverse] at h2
    have hrun_cs : run <+: path.data := hpre0
    have hkept_cs : kept <+: path.data := hkept_run.trans hrun_cs
    have hm_le : m ≤ path.data.length := hkept_cs.length_le
    have htake : path.data.take m = kept := (List.prefix_iff_eq_take.mp hkept_cs).symm
    have hdecomp : run = kept ++ (run.reverse.takeWhile fun c => c != '/').reverse := by
      have h3 := List.takeWhile_append_dropWhile (p := fun c => c != '/') (l := run.reverse)
      have h4 := congrArg List.reverse h3
      rw [List.reverse_append, List.reverse_reverse] at h4
      rw [hkept]
      exact h4.symm
    have htail_noslash : ∀ c ∈ (run.reverse.takeWhile fun c => c != '/').reverse,
        (c != '/') = true := by
      intro c hc
      rw [List.mem_reverse] at hc
      have h7 := List.mem_takeWhile_imp hc
      exact h7
    have hkept_wf : ∀ c ∈ kept, isWildcard c = false := by
      intro c hc
      have hcr : c ∈ run := hkept_run.subset hc
      rw [hrun] at hcr
      have := List.mem_takeWhile_imp hcr
      simpa using this
    have hkept_last : m ≠ 0 → kept.getLast? = some '/' := by
      intro hm0
      rw [hkept, List.getLast?_reverse]
      cases hD : run.reverse.dropWhile fun c => c != '/' with
      | nil =>
        exfalso
        apply hm0
        rw [hm, hkept, hD]
        rfl
      | cons x xs =>
        have hx := dropWhile_head_false _ x xs hD
        have hx2 : x = '/' := by simpa using hx
        rw [hx2]
        rfl
    have hfg : Nat.findGreatest (slashBoundary path) path.data.length = m := by
      rw [Nat.findGreatest_eq_iff]
      refine ⟨hm_le, ?_, ?_⟩
      · intro hm0
        refine ⟨Nat.pos_of_ne_zero hm0, ?_, ?_⟩
        · rw [htake]
          exact hkept_last hm0
        · intro c hc
          rw [htake] at hc
          exact hkept_wf c hc
      · intro k hk hkle hP
        obtain ⟨hk0, hlast, hwf⟩ := hP
        have hpre : path.data.take k <+: run := by
          rw [hrun]
          exact prefix_takeWhile_of_all _ _ (List.take_prefix k path.data)
            fun c hc => by simp [hwf c hc]
        have hklen : (path.data.take k).length = k := by
          rw [List.length_take]
          omega
        have hkle_run : k ≤ run.length := by
          have := hpre.length_le
          omega
        have htk : path.data.take k = run.take k := by
          have h5 := List.prefix_iff_eq_take.mp hpre
          rwa [hklen] at h5
        have hmlen : kept.length = m := hm.symm
        have hsplit : run.take k =
            kept ++ ((run.reverse.takeWhile fun c => c != '/').reverse.take (k - m)) := by
          conv_lhs => rw [hdecomp]
          rw [List.take_append_eq_append_take, hmlen,
            List.take_of_length_le (by omega : kept.length ≤ k)]
        have htail_len : run.length = m +
            (run.reverse.takeWhile fun c => c != '/').reverse.length := by
          conv_lhs => rw [hdecomp]
          rw [List.length_append, hmlen]
        have hne_nil : (run.reverse.takeWhile fun c => c != '/').reverse.take (k - m) ≠ [] := by
          intro hnil
          have h6 := congrArg List.length hnil
          rw [List.length_take] at h6
          simp only [List.length_nil] at h6
          omega
        rw [htk, hsplit, List.getLast?_append_of_ne_nil _ hne_nil] at hlast
        have hmem := List.mem_of_mem_getLast? hlast
        have hmem2 := List.mem_of_mem_take hmem
        have := htail_noslash '/' hmem2
        simp at this
    rw [hfg]
    by_cases hm0 : m = 0
    · have hknil : kept = [] := List.length_eq_zero.mp (by rw [← hm]; exact hm0)
      rw [if_pos hm0]
      rw [if_pos (by rw [hknil]; rfl)]
    · have hkne : ¬(kept.isEmpty = true) := by
        cases hk : kept with
        | nil => exact absurd (by rw [hm, hk]; rfl) hm0
        | cons a t => simp [hk]
      rw [if_neg hkne, if_neg hm0, htake]

/-- Dropping an element which the function maps to `none` does not change
a `filterMap`. -/
theorem filterMap_of_none {α β : Type} [DecidableEq α] (f : α → Option β) (x : α)
    (hf : f x = none) : ∀ l : List α, l.filterMap f = (l.filter fun q => q ≠ x).filterMap f := by
  intro l
  induction l with
  | nil => rfl
  | cons a t ih =>
    by_cases ha : a = x
    · subst ha
      simp [List.filterMap_cons, List.filter_cons, hf, ih]
    · simp [List.filterMap_cons, List.filter_cons, ha, ih]

/-! ### Claim theorems -/

/-- Claim C1: for every configuration state, `get_fetch_url` returns the
highest-precedence non-absent value among, in order, primary `lfs.url`,
overlay `lfs.url`, primary `remote.<name>.lfsurl`, overlay
`remote.<name>.lfsurl`, and the repository's registered default fetch
URL for the resolved remote name; each lower layer is consulted only if
every higher layer yielded nothing, and the resolution fails exactly
when all five layers are absent. -/
theorem get_fetch_url_precedence (scm : Git) (remote : Option String) :
    get_fetch_url scm remote =
      match firstSome (fetchUrlLayers scm remote) with
      | some url => Except.ok url
      | none => Except.error FetchError.invalidRemote := by
  unfold get_fetch_url fetchUrlLayers
  cases hc : scm.lfs_config with
  | none =>
    cases h1 : scm.git_config ["lfs"] "url" <;> simp [firstSome] <;>
      cases h3 : scm.git_config ["remote", resolve_remote_name scm remote] "lfsurl" <;>
        simp [firstSome] <;>
        cases h5 : scm.remote_url (resolve_remote_name scm remote) <;> simp [firstSome]
  | some cfg =>
    cases h1 : scm.git_config ["lfs"] "url" <;> simp [firstSome] <;>
      cases h2 : cfg ["lfs"] "url" <;> simp [firstSome] <;>
        cases h3 : scm.git_config ["remote", resolve_remote_name scm remote] "lfsurl" <;>
          simp [firstSome] <;>
          cases h4 : cfg ["remote", resolve_remote_name scm remote] "lfsurl" <;>
            simp [firstSome] <;>
            cases h5 : scm.remote_url (resolve_remote_name scm remote) <;> simp [firstSome]

/-- Claim C9: when the overlay `.lfsconfig` file does not exist
(`FileNotFoundError`, modelled by `lfs_config = none`), URL resolution
behaves exactly as with an empty overlay configuration: it proceeds
through the remaining precedence layers and never fails on account of
the missing file. -/
theorem overlay_missing_as_empty (scm : Git) (remote : Option String) :
    get_fetch_url { scm with lfs_config := none } remote =
      get_fetch_url { scm with lfs_config := some fun _ _ => none } remote := rfl

/-- Claim C8: `_filter_paths` returns exactly the set of input paths
matching some include pattern (all input paths when include is absent or
empty) minus the paths matching some exclude pattern, with set semantics
(no duplicates); in particular with empty include and exclude lists it
returns the full input path set. -/
theorem filter_paths_sets (paths : List String) (includeP excludeP : Option (List String)) :
    ((_filter_paths paths includeP excludeP).toFinset =
      (if truthyList includeP then
        paths.toFinset.filter fun path => ∃ pattern ∈ includeP.getD [], fnmatch path pattern
       else paths.toFinset) \
      (paths.toFinset.filter fun path => ∃ pattern ∈ excludeP.getD [], fnmatch path pattern))
    ∧ (_filter_paths paths includeP excludeP).Nodup
    ∧ (_filter_paths paths (some []) (some [])).toFinset = paths.toFinset := by
  refine ⟨?_, ?_, ?_⟩
  · ext path
    unfold _filter_paths
    by_cases hi : truthyList includeP <;> by_cases he : truthyList excludeP <;>
      simp [hi, he, List.mem_filter, List.any_eq_true,
        not_truthyList_getD _ ] <;> tauto
  · unfold _filter_paths
    by_cases hi : truthyList includeP <;> by_cases he : truthyList excludeP <;>
      simp only [hi, he, if_true, if_false, Bool.false_eq_true] <;>
      first
        | exact ((paths.nodup_dedup.filter _).filter _)
        | exact (paths.nodup_dedup.filter _)
        | exact paths.nodup_dedup
  · unfold _filter_paths
    simp only [truthyList, List.isEmpty_nil, Bool.not_true, if_false, Bool.false_eq_true]
    ext x
    simp [List.mem_dedup]

/-- Claim C2 counterexample: for the single include pattern `"*.bin"`
(which contains no path separator), the claim's stated root — the
pattern itself — is not what the code computes: the regex fails to
match, the traversal root stays the tree root `"/"` (which differs from
`"*.bin"`), and include filtering is not dropped.  And for the
wildcard-free pattern `"data/file.bin"`, the claim's stated root — the
longest wildcard-free prefix ending at a separator, `"data/"` — is not
what the code computes either: the root is the whole pattern and
include filtering is dropped. -/
theorem narrowing_counterexample :
    ((collectRootAndInclude (some ["*.bin"])).1 = "/" ∧
     (collectRootAndInclude (some ["*.bin"])).1 ≠ "*.bin" ∧
     (collectRootAndInclude (some ["*.bin"])).2 = some ["*.bin"]) ∧
    ((collectRootAndInclude (some ["data/file.bin"])).1 = "data/file.bin" ∧
     (collectRootAndInclude (some ["data/file.bin"])).1 ≠ "data/" ∧
     (collectRootAndInclude (some ["data/file.bin"])).2 = some []) := by
  refine ⟨⟨?_, ?_, ?_⟩, ⟨?_, ?_, ?_⟩⟩ <;> decide

/-- Claim C2 (amended): the root-narrowing step of the Object Collector
agrees with the spec-side description `specRootNarrowing`: with exactly
one include pattern, the traversal root becomes the whole pattern when
it is wildcard-free, else the longest wildcard-free prefix ending at a
path-separator boundary when one exists, and otherwise (wildcard before
any separator boundary) no narrowing occurs; include filtering is
dropped exactly when the pattern equals the computed root or the
slash-stripped root followed by `"/**"`; with zero or several include
patterns the root is the tree root and the patterns are unchanged. -/
theorem narrowing_eq_spec (includeP : Option (List String)) :
    collectRootAndInclude includeP = specRootNarrowing includeP := by
  cases includeP with
  | none => rfl
  | some l =>
    cases l with
    | nil => rfl
    | cons a t =>
      cases t with
      | nil =>
        simp only [collectRootAndInclude, specRootNarrowing, rootPathRegexMatch_eq_spec]
      | cons b t2 => rfl

/-- Claim C10: when the single include pattern has a wildcard character
before any path separator, the root-prefix regex fails to match, so no
narrowing occurs: the traversal root stays the tree root `"/"` and the
include pattern is kept (still applied by the Path Filter). -/
theorem wildcard_before_separator (p : String)
    (h : ∃ i, i < p.data.length ∧ isWildcard (p.data.getD i ' ') = true ∧
      ∀ j < i, p.data.getD j ' ' ≠ '/') :
    rootPathRegexMatch p = none ∧
    collectRootAndInclude (some [p]) = ("/", some [p]) := by
  obtain ⟨i, hi, hwild, hbefore⟩ := h
  have hnone : rootPathRegexMatch p = none := by
    unfold rootPathRegexMatch
    set run := p.data.takeWhile (fun c => !isWildcard c) with hrun
    have hrun_cs : run <+: p.data := by
      rw [hrun]; exact List.takeWhile_prefix _
    have hrunle : run.length ≤ i := by
      by_contra hgt
      push_neg at hgt
      have hi1 : i < p.data.length := hi
      have hel : run[i] = p.data[i] := hrun_cs.getElem hgt
      have hmem2 : p.data[i] ∈ run := by
        rw [← hel]
        exact List.getElem_mem hgt
      rw [hrun] at hmem2
      have hpred := List.mem_takeWhile_imp hmem2
      rw [List.getD_eq_getElem p.data ' ' hi1] at hwild
      simp [hwild] at hpred
    have hnoslash : ∀ c ∈ run, (c != '/') = true := by
      intro c hc
      obtain ⟨j, hj, hcj⟩ := List.mem_iff_getElem.mp hc
      have hjlt : j < p.data.length := by
        have := hrun_cs.length_le
        omega
      have hel : run[j] = p.data[j] := hrun_cs.getElem hj
      have hne : p.data.getD j ' ' ≠ '/' := hbefore j (by omega)
      rw [List.getD_eq_getElem p.data ' ' hjlt] at hne
      apply bne_iff_ne.mpr
      rw [← hcj, hel]
      exact hne
    have hrlt : ¬(run.length = p.data.length) := by omega
    rw [if_neg hrlt]
    have hkept : (run.reverse.dropWhile fun c => c != '/') = [] := by
      rw [List.dropWhile_eq_nil_iff]
      intro x hx
      exact hnoslash x (List.mem_reverse.mp hx)
    rw [hkept]
    rfl
  refine ⟨hnone, ?_⟩
  simp only [collectRootAndInclude, hnone]

/-- Claim C10 witness: the pattern `"*.bin"` has its wildcard `*` at
position 0, before any separator; the regex fails and no narrowing
occurs. -/
theorem wildcard_before_separator_witness :
    rootPathRegexMatch "*.bin" = none ∧
    collectRootAndInclude (some ["*.bin"]) = ("/", some ["*.bin"]) :=
  wildcard_before_separator "*.bin" ⟨0, by decide, by decide, by decide⟩

/-- Claim C7: an `OSError` on opening a candidate's raw content, or a
`ValueError` from parsing it, is caught inside the collector: the
candidate yields nothing, and the collection over the whole traversal is
exactly what it would be with that candidate removed from the filtered
path list — no per-candidate failure ever aborts the traversal or
surfaces to the caller. -/
theorem candidate_failure_skipped (scm : Git) (rev : String)
    (includeP excludeP : Option (List String)) (path : String)
    (h : (∃ e, scm.openRaw rev path = Except.error e) ∨
         (∃ data, scm.openRaw rev path = Except.ok data ∧ scm.pointerLoad data = none)) :
    processCandidate scm rev path = none ∧
    _collect_objects scm rev includeP excludeP =
      ((collectPaths scm rev includeP excludeP).filter fun q => q ≠ path).filterMap
        (processCandidate scm rev) := by
  have hnone : processCandidate scm rev path = none := by
    unfold processCandidate
    rcases h with ⟨e, he⟩ | ⟨data, hd, hl⟩
    · rw [he]
      simp
    · rw [hd]
      by_cases hattr : scm.check_attr (lstripSlashes path) "filter" rev = some "lfs" <;>
        simp [hattr, hl]
  refine ⟨hnone, ?_⟩
  unfold _collect_objects
  exact filterMap_of_none _ _ hnone _

/-- Claim C7 witness: in `gitEnvBadBlob` the candidate `"/bad"` fails to
open; it is skipped and the traversal is as if it were absent. -/
theorem candidate_failure_witness :
    processCandidate gitEnvBadBlob "r1" "/bad" = none ∧
    _collect_objects gitEnvBadBlob "r1" none none =
      ((collectPaths gitEnvBadBlob "r1" none none).filter fun q => q ≠ "/bad").filterMap
        (processCandidate gitEnvBadBlob "r1") :=
  candidate_failure_skipped gitEnvBadBlob "r1" none none "/bad" (Or.inl ⟨(), rfl⟩)

/-- Claim C6 counterexample: the storage existence check is not invoked
exactly once per distinct `Pointer` identity.  In `gitEnvDup` the two
requested revisions each yield the same pointer (oid `"abc"`, size 10),
and `fetch` performs two existence checks for that single identity. -/
theorem exists_check_twice :
    (fetch gitEnvDup (some ["r1", "r2"]) none none none).1.count
      (Call.exists_check ⟨"abc", 10⟩) = 2 ∧ (2 : Nat) ≠ 1 := by
  constructor
  · decide
  · decide

/-- Claim C6 (amended): during `fetch`, the local-storage existence
check is invoked exactly once per collected pointer occurrence: the
number of existence checks for a pointer equals the number of times the
Object Collector yields it, summed over the requested revisions;
deduplication by `Pointer` identity happens only afterwards, in the
accumulated set. -/
theorem count_exists_check (scm : Git) (revs : Option (List String)) (remote : Option String)
    (includeP excludeP : Option (List String)) (p : Pointer) :
    (fetch scm revs remote includeP excludeP).1.count (Call.exists_check p)
      = (fetchCollected scm revs includeP excludeP).count p := by
  have hmap : ∀ l : List Pointer,
      (l.map Call.exists_check).count (Call.exists_check p) = l.count p := by
    intro l
    induction l with
    | nil => simp
    | cons a t ih => simp [List.count_cons, ih]
  unfold fetch
  by_cases hobj : fetchObjects scm revs includeP excludeP = ∅ <;>
    rcases hurl : get_fetch_url scm remote with url | e <;>
      by_cases hr : truthyStr remote <;>
        simp [hobj, hurl, hr, List.count_append, List.count_cons, hmap _]

/-- Claim C5: if every pointer collected from every requested revision
is already present in local storage, `fetch` returns without error and
its call trace contains only existence checks — zero endpoint-resolution
calls and zero transfer calls. -/
theorem fetch_all_present (scm : Git) (revs : Option (List String)) (remote : Option String)
    (includeP excludeP : Option (List String))
    (h : ∀ rev ∈ usedRevs revs, ∀ pointer ∈ _collect_objects scm rev includeP excludeP,
      scm.lfs_exists pointer = true) :
    (fetch scm revs remote includeP excludeP).2 = none ∧
    ∀ call ∈ (fetch scm revs remote includeP excludeP).1,
      ∃ pointer, call = Call.exists_check pointer := by
  have hobj : fetchObjects scm revs includeP excludeP = ∅ := by
    unfold fetchObjects fetchCollected
    rw [Finset.eq_empty_iff_forall_not_mem]
    intro p hp
    rw [List.mem_toFinset, List.mem_filter] at hp
    obtain ⟨hmem, hex⟩ := hp
    rw [List.mem_flatMap] at hmem
    obtain ⟨rev, hrev, hcol⟩ := hmem
    rw [h rev hrev p hcol] at hex
    simp at hex
  have hfe : fetch scm revs remote includeP excludeP =
      ((fetchCollected scm revs includeP excludeP).map Call.exists_check, none) := by
    unfold fetch; simp [hobj]
  rw [hfe]
  refine ⟨rfl, ?_⟩
  intro call hcall
  rw [List.mem_map] at hcall
  obtain ⟨pointer, -, hc⟩ := hcall
  exact ⟨pointer, hc.symm⟩

/-- Claim C5 witness: in `gitEnvPresent` every collected pointer is
already in storage, and `fetch` makes only existence-check calls. -/
theorem fetch_all_present_witness :
    (fetch gitEnvPresent (some ["r1"]) none none none).2 = none ∧
    ∀ call ∈ (fetch gitEnvPresent (some ["r1"]) none none none).1,
      ∃ pointer, call = Call.exists_check pointer :=
  fetch_all_present gitEnvPresent (some ["r1"]) none none none (by decide)

/-- Claim C3: whenever `fetch` delegates a transfer, the object set it
hands over is a set keyed by `Pointer` identity (content identifier and
byte size only): a pointer belongs to it exactly when some requested
revision's collection yields it and the local-storage existence check is
negative — so byte-identical content referenced by several revisions
contributes a single entry and stored pointers are excluded — and the
transfer is the last call of the trace, after every existence check. -/
theorem transfer_objects (scm : Git) (revs : Option (List String))
    (remote : Option String) (includeP excludeP : Option (List String))
    (url : String) (objs : Finset Pointer)
    (h : Call.transfer url objs ∈ (fetch scm revs remote includeP excludeP).1) :
    (∀ pointer, pointer ∈ objs ↔
      ((∃ rev ∈ usedRevs revs, pointer ∈ _collect_objects scm rev includeP excludeP) ∧
        scm.lfs_exists pointer = false)) ∧
    (fetch scm revs remote includeP excludeP).1.getLast? =
      some (Call.transfer url objs) := by
  have hchar : ∀ pointer, pointer ∈ fetchObjects scm revs includeP excludeP ↔
      ((∃ rev ∈ usedRevs revs, pointer ∈ _collect_objects scm rev includeP excludeP) ∧
        scm.lfs_exists pointer = false) := by
    intro pointer
    unfold fetchObjects fetchCollected
    simp [List.mem_filter, List.mem_flatMap]
  by_cases hobj : fetchObjects scm revs includeP excludeP = ∅
  · exfalso
    have hfe : fetch scm revs remote includeP excludeP =
        ((fetchCollected scm revs includeP excludeP).map Call.exists_check, none) := by
      unfold fetch; simp [hobj]
    rw [hfe] at h
    simp at h
  · rcases hurl : get_fetch_url scm remote with e | url2
    · by_cases hr : truthyStr remote
      · have hfe : fetch scm revs remote includeP excludeP =
            ((fetchCollected scm revs includeP excludeP).map Call.exists_check ++
              [Call.resolve_url,
               Call.transfer (remote.getD "") (fetchObjects scm revs includeP excludeP)],
             none) := by
          unfold fetch; simp [hobj, hurl, hr]
        rw [hfe] at h ⊢
        simp only [List.mem_append, List.mem_map, List.mem_cons,
          List.not_mem_nil, or_false] at h
        rcases h with ⟨x, -, hx⟩ | h | h
        · simp at hx
        · simp at h
        · obtain ⟨hu, ho⟩ := Call.transfer.inj h
          subst hu; subst ho
          refine ⟨hchar, ?_⟩
          rw [List.getLast?_append_cons]
          rfl
      · have hfe : fetch scm revs remote includeP excludeP =
            ((fetchCollected scm revs includeP excludeP).map Call.exists_check ++
              [Call.resolve_url], some e) := by
          unfold fetch; simp [hobj, hurl, hr]
        rw [hfe] at h
        simp only [List.mem_append, List.mem_map, List.mem_cons,
          List.not_mem_nil, or_false] at h
        rcases h with ⟨x, -, hx⟩ | h
        · simp at hx
        · simp at h
    · have hfe : fetch scm revs remote includeP excludeP =
          ((fetchCollected scm revs includeP excludeP).map Call.exists_check ++
            [Call.resolve_url,
             Call.transfer url2 (fetchObjects scm revs includeP excludeP)], none) := by
        unfold fetch; simp [hobj, hurl]
      rw [hfe] at h ⊢
      simp only [List.mem_append, List.mem_map, List.mem_cons,
        List.not_mem_nil, or_false] at h
      rcases h with ⟨x, -, hx⟩ | h | h
      · simp at hx
      · simp at h
      · obtain ⟨hu, ho⟩ := Call.transfer.inj h
        subst hu; subst ho
        refine ⟨hchar, ?_⟩
        rw [List.getLast?_append_cons]
        rfl

/-- Claim C3 witness: in `gitEnvDup` with two revisions yielding the
same pointer, the transferred set is the singleton of that pointer, and
its membership is characterized as claimed. -/
theorem transfer_objects_witness :
    Call.transfer "http://x" {⟨"abc", 10⟩} ∈
      (fetch gitEnvDup (some ["r1", "r2"]) none none none).1 ∧
    ((⟨"abc", 10⟩ : Pointer) ∈ ({⟨"abc", 10⟩} : Finset Pointer) ↔
      ((∃ rev ∈ usedRevs (some ["r1", "r2"]),
          (⟨"abc", 10⟩ : Pointer) ∈ _collect_objects gitEnvDup rev none none) ∧
        gitEnvDup.lfs_exists ⟨"abc", 10⟩ = false)) :=
  ⟨by decide,
   (transfer_objects gitEnvDup (some ["r1", "r2"]) none none none "http://x"
      {⟨"abc", 10⟩} (by decide)).1 ⟨"abc", 10⟩⟩

/-- Claim C4: when URL resolution fails with `InvalidRemote` ("no remote
configured") and the caller supplied a (truthy) explicit remote
override, `fetch` does not propagate the failure and uses the override
string verbatim as the transfer endpoint; when no override was supplied
the failure propagates to the caller and no transfer happens. -/
theorem invalid_remote_handling (scm : Git) (revs : Option (List String)) (r : String)
    (includeP excludeP : Option (List String))
    (hne : fetchObjects scm revs includeP excludeP ≠ ∅) :
    (r ≠ "" → get_fetch_url scm (some r) = Except.error FetchError.invalidRemote →
      ((fetch scm revs (some r) includeP excludeP).2 = none ∧
       (fetch scm revs (some r) includeP excludeP).1.getLast? =
         some (Call.transfer r (fetchObjects scm revs includeP excludeP)))) ∧
    (get_fetch_url scm none = Except.error FetchError.invalidRemote →
      ((fetch scm revs none includeP excludeP).2 = some FetchError.invalidRemote ∧
       ∀ url objs, Call.transfer url objs ∉ (fetch scm revs none includeP excludeP).1)) := by
  constructor
  · intro hr herr
    have htruthy : truthyStr (some r) = true := by
      have hie : r.isEmpty = false := by
        rw [← Bool.not_eq_true, String.isEmpty_iff]
        exact hr
      simp [truthyStr, hie]
    have hfe : fetch scm revs (some r) includeP excludeP =
        ((fetchCollected scm revs includeP excludeP).map Call.exists_check ++
          [Call.resolve_url,
           Call.transfer r (fetchObjects scm revs includeP excludeP)], none) := by
      unfold fetch; simp [hne, herr, htruthy]
    rw [hfe]
    refine ⟨rfl, ?_⟩
    rw [List.getLast?_append_cons]
    rfl
  · intro herr
    have hfe : fetch scm revs none includeP excludeP =
        ((fetchCollected scm revs includeP excludeP).map Call.exists_check ++
          [Call.resolve_url], some FetchError.invalidRemote) := by
      unfold fetch; simp [hne, herr, truthyStr]
    rw [hfe]
    refine ⟨rfl, ?_⟩
    intro url objs hmem
    simp only [List.mem_append, List.mem_map, List.mem_cons, List.not_mem_nil,
      or_false] at hmem
    rcases hmem with ⟨x, -, hx⟩ | hmem
    · simp at hx
    · simp at hmem

/-- Claim C4 witness: in `gitEnvNoRemote` resolution fails; with the
override `"myremote"` the override is the endpoint and no error is
returned, while without an override the `InvalidRemote` failure
propagates and nothing is transferred. -/
theorem invalid_remote_handling_witness :
    ((fetch gitEnvNoRemote (some ["r1"]) (some "myremote") none none).2 = none ∧
     (fetch gitEnvNoRemote (some ["r1"]) (some "myremote") none none).1.getLast? =
       some (Call.transfer "myremote" (fetchObjects gitEnvNoRemote (some ["r1"]) none none))) ∧
    ((fetch gitEnvNoRemote (some ["r1"]) none none none).2 = some FetchError.invalidRemote ∧
     ∀ url objs, Call.transfer url objs ∉ (fetch gitEnvNoRemote (some ["r1"]) none none none).1) := by
  have h := invalid_remote_handling gitEnvNoRemote (some ["r1"]) "myremote" none none (by decide)
  exact ⟨h.1 (by decide) rfl, h.2 rfl⟩
